import Mathlib

/-!
Shallow embedding of the tinytracer rendering core (`src/main.cpp`).

Modelling conventions:
* `float` values are idealised as rationals (`ℚ`); the float square root
  (`glm::sqrt`) is an explicit function parameter `sq : ℚ → ℚ`, because the
  vector math library is an external collaborator of this program.
* The `maxT` argument of `Ray.intersects` lives in `WithTop ℚ`, so that the
  call site `ray.intersects(sphere, 0.001, infinity)` can pass the float
  positive infinity as `⊤`.
* The process-wide random generator is embedded by explicit state passing:
  the unit vectors drawn by `randomUnitVec3OnSphere` inside `Ray.scatter`
  are read from a stream `rng : ℕ → Vec3` at a cursor that each drawing
  call advances, and the per-sample jitter floats drawn by
  `randomVec2(-0.5f, 0.5f)` are read from a stream `jit : ℕ → ℚ`.
* The `std::numeric_limits<float>` constants `epsilon()`, `min()` and
  `max()` are the exact rationals `fltEps`, `fltMin`, `fltMax`.
* The `Sphere*` pointer held by `HitRecord` is modelled as the index of the
  sphere in the world's vector paired with the sphere's data: pointer
  identity in the source corresponds to index identity here.
-/

/-- Component-wise 3-vector of rationals, standing for `glm::vec3`.
The source accesses components as `.x .y .z` or `.r .g .b`. -/
@[ext]
structure Vec3 where
  x : ℚ
  y : ℚ
  z : ℚ
deriving DecidableEq

instance : Zero Vec3 := ⟨⟨0, 0, 0⟩⟩

instance : Add Vec3 := ⟨fun a b => ⟨a.x + b.x, a.y + b.y, a.z + b.z⟩⟩

instance : Sub Vec3 := ⟨fun a b => ⟨a.x - b.x, a.y - b.y, a.z - b.z⟩⟩

/-- Component-wise product, `glm::vec3 * glm::vec3`. -/
instance : Mul Vec3 := ⟨fun a b => ⟨a.x * b.x, a.y * b.y, a.z * b.z⟩⟩

/-- Scalar times vector, `float * glm::vec3`. -/
instance : SMul ℚ Vec3 := ⟨fun c v => ⟨c * v.x, c * v.y, c * v.z⟩⟩

/-- Vector divided by scalar, `glm::vec3 / float`. -/
instance : HDiv Vec3 ℚ Vec3 := ⟨fun v c => ⟨v.x / c, v.y / c, v.z / c⟩⟩

@[simp] theorem Vec3.zero_x : (0 : Vec3).x = 0 := rfl

@[simp] theorem Vec3.zero_y : (0 : Vec3).y = 0 := rfl

@[simp] theorem Vec3.zero_z : (0 : Vec3).z = 0 := rfl

@[simp] theorem Vec3.add_x (a b : Vec3) : (a + b).x = a.x + b.x := rfl

@[simp] theorem Vec3.add_y (a b : Vec3) : (a + b).y = a.y + b.y := rfl

@[simp] theorem Vec3.add_z (a b : Vec3) : (a + b).z = a.z + b.z := rfl

@[simp] theorem Vec3.sub_x (a b : Vec3) : (a - b).x = a.x - b.x := rfl

@[simp] theorem Vec3.sub_y (a b : Vec3) : (a - b).y = a.y - b.y := rfl

@[simp] theorem Vec3.sub_z (a b : Vec3) : (a - b).z = a.z - b.z := rfl

@[simp] theorem Vec3.mul_x (a b : Vec3) : (a * b).x = a.x * b.x := rfl

@[simp] theorem Vec3.mul_y (a b : Vec3) : (a * b).y = a.y * b.y := rfl

@[simp] theorem Vec3.mul_z (a b : Vec3) : (a * b).z = a.z * b.z := rfl

@[simp] theorem Vec3.smul_x (c : ℚ) (v : Vec3) : (c • v).x = c * v.x := rfl

@[simp] theorem Vec3.smul_y (c : ℚ) (v : Vec3) : (c • v).y = c * v.y := rfl

@[simp] theorem Vec3.smul_z (c : ℚ) (v : Vec3) : (c • v).z = c * v.z := rfl

@[simp] theorem Vec3.div_x (v : Vec3) (c : ℚ) : (v / c).x = v.x / c := rfl

@[simp] theorem Vec3.div_y (v : Vec3) (c : ℚ) : (v / c).y = v.y / c := rfl

@[simp] theorem Vec3.div_z (v : Vec3) (c : ℚ) : (v / c).z = v.z / c := rfl

/-- Dot product of two vectors, `glm::dot`. -/
def dot (a b : Vec3) : ℚ := a.x * b.x + a.y * b.y + a.z * b.z

/-- Mirror reflection `glm::reflect(i, n) = i - 2 * dot(n, i) * n`. -/
def reflect (i n : Vec3) : Vec3 := i - (2 * dot n i) • n

/-- Exact value of `std::numeric_limits<float>::epsilon()`, i.e. `2⁻²³`. -/
def fltEps : ℚ := 1 / 2 ^ 23

/-- Exact value of `std::numeric_limits<float>::min()`, i.e. `2⁻¹²⁶`. -/
def fltMin : ℚ := 1 / 2 ^ 126

/-- Exact value of `std::numeric_limits<float>::max()`, i.e. `(2²⁴−1)·2¹⁰⁴`. -/
def fltMax : ℚ := (2 ^ 24 - 1) * 2 ^ 104

/-- The source's `nearZero`: every component has absolute value strictly
below `std::numeric_limits<float>::epsilon()`. -/
def nearZero (v : Vec3) : Bool :=
  decide (|v.x| < fltEps) && decide (|v.y| < fltEps) && decide (|v.z| < fltEps)

/-- The source's `Material` struct. The float `metallic` flag is tested for
truthiness (`if (mat.metallic)`), i.e. for being nonzero. -/
structure Material where
  albedo : Vec3
  roughness : ℚ
  metallic : ℚ
deriving DecidableEq

/-- The source's `Sphere` struct. -/
structure Sphere where
  center : Vec3
  radius : ℚ
  material : Material
deriving DecidableEq

/-- The source's `Camera` struct. -/
structure Camera where
  position : Vec3
deriving DecidableEq

/-- The source's `HitRecord`: the `Sphere*` pointer becomes
`Option (ℕ × Sphere)` (index into the world's sphere vector plus that
sphere's data; `none` models the null pointer), and `t` keeps the closest
parameter found (it stays at `fltMax` when nothing was hit). -/
structure HitRecord where
  sphere : Option (ℕ × Sphere)
  t : ℚ
deriving DecidableEq

/-- The source's `Ray` struct. -/
structure Ray where
  origin : Vec3
  direction : Vec3
deriving DecidableEq

/-- The source's `Ray::at`: `origin + t * direction`. -/
def Ray.at (r : Ray) (t : ℚ) : Vec3 := r.origin + t • r.direction

/-- The source's `Ray::scatter`. The global generator call
`randomUnitVec3OnSphere()` is embedded by reading the stream `rng` at the
cursor `k`; the returned number is the advanced cursor (the metallic branch
draws nothing, the diffuse branch draws one vector). -/
def Ray.scatter (r : Ray) (p n : Vec3) (mat : Material) (rng : ℕ → Vec3)
    (k : ℕ) : Ray × ℕ :=
  if mat.metallic ≠ 0 then
    (⟨p, reflect (p - r.origin) n⟩, k)
  else
    let dir := rng k
    let dir := if nearZero (n + dir) then n else dir
    (⟨p, n + dir⟩, k + 1)

/-- The source's `Ray::intersects`, solving the quadratic in its geometric
form. `maxT : WithTop ℚ` models the float upper bound, which the caller
`World::hit` sets to positive infinity (`⊤`). -/
def Ray.intersects (sq : ℚ → ℚ) (r : Ray) (sphere : Sphere) (minT : ℚ)
    (maxT : WithTop ℚ) : ℚ :=
  let oc := sphere.center - r.origin
  let a := dot r.direction r.direction
  let h := dot r.direction oc
  let c := dot oc oc - sphere.radius * sphere.radius
  let d := h * h - a * c
  if d < 0 then -1
  else
    let ds := sq d
    let t := (h - ds) / a
    if t ≤ minT ∨ maxT ≤ (t : WithTop ℚ) then
      let t2 := (h + ds) / a
      if t2 ≤ minT ∨ maxT ≤ (t2 : WithTop ℚ) then -1 else t2
    else t

/-- Specification-side name for the quadratic coefficient `a` of
`Ray::intersects`. -/
def quadA (r : Ray) : ℚ := dot r.direction r.direction

/-- Specification-side name for the half-angle coefficient `h` of
`Ray::intersects`. -/
def quadH (r : Ray) (s : Sphere) : ℚ := dot r.direction (s.center - r.origin)

/-- Specification-side name for the coefficient `c` of `Ray::intersects`. -/
def quadC (r : Ray) (s : Sphere) : ℚ :=
  dot (s.center - r.origin) (s.center - r.origin) - s.radius * s.radius

/-- Specification-side name for the discriminant `d = h*h - a*c` of
`Ray::intersects`. -/
def quadD (r : Ray) (s : Sphere) : ℚ :=
  quadH r s * quadH r s - quadA r * quadC r s

/-- Near root `(h - sqrt d) / a` tried first by `Ray::intersects`. -/
def nearRoot (sq : ℚ → ℚ) (r : Ray) (s : Sphere) : ℚ :=
  (quadH r s - sq (quadD r s)) / quadA r

/-- Far root `(h + sqrt d) / a` tried second by `Ray::intersects`. -/
def farRoot (sq : ℚ → ℚ) (r : Ray) (s : Sphere) : ℚ :=
  (quadH r s + sq (quadD r s)) / quadA r

/-- The source's `World` struct. -/
structure World where
  camera : Camera
  spheres : List Sphere
deriving DecidableEq

/-- Loop body of `World::hit`, recursing over the sphere vector while
carrying the running index `i`, the best record `best` and the best
parameter `bestT`. A sphere is skipped exactly when
`t < 0 || t > closestT`. -/
def hitAux (sq : ℚ → ℚ) (ray : Ray) :
    List Sphere → ℕ → Option (ℕ × Sphere) → ℚ → Option (ℕ × Sphere) × ℚ
  | [], _, best, bestT => (best, bestT)
  | sphere :: rest, i, best, bestT =>
    let t := ray.intersects sq sphere (1 / 1000) ⊤
    if t < 0 ∨ bestT < t then hitAux sq ray rest (i + 1) best bestT
    else hitAux sq ray rest (i + 1) (some (i, sphere)) t

/-- The source's `World::hit`: closest-hit query over all spheres, starting
from a null record and `closestT = std::numeric_limits<float>::max()`, with
bounds `(0.001, infinity)`. -/
def World.hit (sq : ℚ → ℚ) (w : World) (ray : Ray) : HitRecord :=
  let r := hitAux sq ray w.spheres 0 none fltMax
  ⟨r.1, r.2⟩

/-- The source's `World::color`, the recursive integrator. `depth` is the
source's float recursion budget (only ever an integer at run time, hence
`ℤ`); `k` is the random-stream cursor threaded through `Ray.scatter`. -/
def World.color (sq : ℚ → ℚ) (rng : ℕ → Vec3) (w : World) (ray : Ray)
    (depth : ℤ) (k : ℕ) : Vec3 :=
  if depth ≤ 0 then ⟨0, 0, 0⟩
  else
    let record := w.hit sq ray
    match record.sphere with
    | none => ⟨1 / 2, 4 / 5, 9 / 10⟩
    | some (_, sphere) =>
      let p := ray.at record.t
      let n := (p - sphere.center) / sphere.radius
      let sc := ray.scatter p n sphere.material rng k
      (1 / 4 : ℚ) • (sphere.material.albedo * w.color sq rng sc.1 (depth - 1) sc.2)
termination_by depth.toNat
decreasing_by
  simp_wf
  omega

/-- Body of the rejection loop of `randomUnitVec3OnSphere`: given the
candidate drawn by `randomVec3(-1.0f, 1.0f)`, accept it when its squared
length lies in `(std::numeric_limits<float>::min(), 1]` and normalize by
dividing by `glm::sqrt` of the squared length; otherwise reject. -/
def acceptUnit (sq : ℚ → ℚ) (dir : Vec3) : Option Vec3 :=
  let l := dot dir dir
  if fltMin < l ∧ l ≤ 1 then some (dir / sq l) else none

/-- The source's `randomUnitVec3OnSphere` rejection loop, iterating the
accept test over a stream of candidate vectors `cands` from position `j`,
with explicit fuel standing for the unbounded `while (true)`. -/
def randomUnitVec3OnSphere (sq : ℚ → ℚ) (cands : ℕ → Vec3) :
    ℕ → ℕ → Option Vec3
  | 0, _ => none
  | fuel + 1, j =>
    match acceptUnit sq (cands j) with
    | some v => some v
    | none => randomUnitVec3OnSphere sq cands fuel (j + 1)

/-- `glm::normalize`: the vector divided by its length. -/
def Vec3.normalize (sq : ℚ → ℚ) (v : Vec3) : Vec3 := v / sq (dot v v)

/-- The source's `pixelToWorld`, mapping a (jittered) pixel coordinate to a
camera-space point via the pinhole projection; `wpx`, `hpx`, `aspectRatio`
and `fov` stand for the source's globals `w`, `h`, `aspectRatio`, `fov`. -/
def pixelToWorld (wpx hpx : ℕ) (aspectRatio fov : ℚ) (x y : ℚ) : ℚ × ℚ :=
  ((2 * ((x + 1 / 2) / (wpx : ℚ)) - 1) * aspectRatio * fov,
   (1 - 2 * ((y + 1 / 2) / (hpx : ℚ))) * fov)

/-- One sample of the source's inner sampling loop: jitter the pixel by
`randomVec2(-0.5f, 0.5f)` (two draws from the jitter stream at the global
sample number `g`; `randomFloat(min, max) = min + (max - min) * u`), build
the normalized primary ray, and run the integrator. Each sample gets the
unit-vector stream `rngs g` with its cursor at `0`. -/
def renderSample (sq : ℚ → ℚ) (fov aspectRatio : ℚ) (world : World)
    (wpx hpx : ℕ) (depth : ℤ) (jit : ℕ → ℚ) (rngs : ℕ → ℕ → Vec3)
    (x y g : ℕ) : Vec3 :=
  let ox : ℚ := -(1 / 2) + (1 / 2 - -(1 / 2)) * jit (2 * g)
  let oy : ℚ := -(1 / 2) + (1 / 2 - -(1 / 2)) * jit (2 * g + 1)
  let pos := pixelToWorld wpx hpx aspectRatio fov ((x : ℚ) + ox) ((y : ℚ) + oy)
  let origin := world.camera.position
  let dir := Vec3.normalize sq (⟨pos.1, pos.2, -1⟩ - origin)
  world.color sq (rngs g) ⟨origin, dir⟩ depth 0

/-- Component-wise `glm::sqrt` on a vector. -/
def sqrtV (sq : ℚ → ℚ) (v : Vec3) : Vec3 := ⟨sq v.x, sq v.y, sq v.z⟩

/-- `glm::clamp(v, 0.0f, 1.0f)` component-wise. -/
def clampV (v : Vec3) : Vec3 :=
  ⟨min (max v.x 0) 1, min (max v.y 0) 1, min (max v.z 0) 1⟩

/-- Packing of a clamped color into one RGBA8 word:
`r << 24 | g << 16 | b << 8 | 0xFF`, where each channel is
`static_cast<uint32_t>(c * 255)` (truncation, i.e. floor for the
non-negative clamped values). -/
def packRGBA (c : Vec3) : ℕ :=
  ((c.x * 255).floor.toNat <<< 24) ||| ((c.y * 255).floor.toNat <<< 16) |||
    ((c.z * 255).floor.toNat <<< 8) ||| 255

/-- One pixel of the source's sampling loop: accumulate `sampleCount`
samples, average, apply the square-root tone curve, clamp and pack. The
global sample number of sample `i` at pixel `(x, y)` is
`(y * wpx + x) * sampleCount + i`. -/
def renderPixel (sq : ℚ → ℚ) (fov aspectRatio : ℚ) (world : World)
    (wpx hpx sampleCount : ℕ) (depth : ℤ) (jit : ℕ → ℚ)
    (rngs : ℕ → ℕ → Vec3) (x y : ℕ) : ℕ :=
  let base := (y * wpx + x) * sampleCount
  let sum := (List.range sampleCount).foldl
    (fun acc i =>
      acc + renderSample sq fov aspectRatio world wpx hpx depth jit rngs x y (base + i))
    (0 : Vec3)
  packRGBA (clampV (sqrtV sq (sum / (sampleCount : ℚ))))

/-- The source's full rendering loop: the row-major pixel buffer of
`wpx * hpx` packed RGBA words, with `aspectRatio = w / h` as in `main`. -/
def render (sq : ℚ → ℚ) (fov : ℚ) (world : World) (wpx hpx sampleCount : ℕ)
    (depth : ℤ) (jit : ℕ → ℚ) (rngs : ℕ → ℕ → Vec3) : List ℕ :=
  let aspectRatio : ℚ := (wpx : ℚ) / (hpx : ℚ)
  (List.range hpx).flatMap fun y =>
    (List.range wpx).map fun x =>
      renderPixel sq fov aspectRatio world wpx hpx sampleCount depth jit rngs x y

/-- Concrete probe ray along the negative z axis from the origin. -/
def unitZRay : Ray := ⟨⟨0, 0, 0⟩, ⟨0, 0, -1⟩⟩

/-- Concrete diffuse gray material. -/
def grayMat : Material := ⟨⟨1 / 2, 1 / 2, 1 / 2⟩, 1, 0⟩

/-- Concrete sphere hit by `unitZRay` at parameter `t = 1`, where the
discriminant is the perfect square `1`. -/
def probeSphere : Sphere := ⟨⟨0, 0, -2⟩, 1, grayMat⟩

/-- One-sphere world around `probeSphere`. -/
def probeWorld : World := ⟨⟨⟨0, 0, 0⟩⟩, [probeSphere]⟩

/-- Sphere missed by `unitZRay` (negative discriminant). -/
def missSphere : Sphere := ⟨⟨5, 0, 0⟩, 1, grayMat⟩

/-- One-sphere world around `missSphere`. -/
def missWorld : World := ⟨⟨⟨0, 0, 0⟩⟩, [missSphere]⟩

/-- Metallic green sphere at the same position as `probeSphere`, producing
an exact intersection tie with it. -/
def tieSphere : Sphere := ⟨⟨0, 0, -2⟩, 1, ⟨⟨0, 1, 0⟩, 1, 1⟩⟩

/-- Two-sphere world in which both spheres are hit at exactly `t = 1`. -/
def tieWorld : World := ⟨⟨⟨0, 0, 0⟩⟩, [probeSphere, tieSphere]⟩

/-- Constant random stream used by witnesses. -/
def constRng : ℕ → Vec3 := fun _ => ⟨1, 0, 0⟩

/-- Constant random stream drawing `(-1,0,0)`, the exact opposite of the
normal `(1,0,0)`, to trigger the near-zero cancellation in `scatter`. -/
def negXRng : ℕ → Vec3 := fun _ => ⟨-1, 0, 0⟩

/-- Rejecting a root because it is outside the bounds (`t <= minT || t >=
maxT` in the source) is exactly the negation of lying strictly inside
`(minT, maxT)`. -/
theorem outside_iff (minT t : ℚ) (maxT : WithTop ℚ) :
    (t ≤ minT ∨ maxT ≤ (t : WithTop ℚ)) ↔
      ¬(minT < t ∧ (t : WithTop ℚ) < maxT) := by
  rw [not_and_or, not_lt, not_lt]

/-- Unfolding lemma: the integrator returns black at exhausted depth. -/
theorem color_of_depth_nonpos (sq : ℚ → ℚ) (rng : ℕ → Vec3) (w : World)
    (ray : Ray) (depth : ℤ) (k : ℕ) (hd : depth ≤ 0) :
    World.color sq rng w ray depth k = ⟨0, 0, 0⟩ := by
  rw [World.color.eq_def, if_pos hd]

/-- Unfolding lemma: the integrator returns the sky constant when the
closest-hit query comes back with a null sphere. -/
theorem color_of_hit_none (sq : ℚ → ℚ) (rng : ℕ → Vec3) (w : World)
    (ray : Ray) (depth : ℤ) (k : ℕ) (t : ℚ) (hd : 0 < depth)
    (hh : w.hit sq ray = ⟨none, t⟩) :
    World.color sq rng w ray depth k = ⟨1 / 2, 4 / 5, 9 / 10⟩ := by
  rw [World.color.eq_def, if_neg (not_le.mpr hd), hh]

/-- Unfolding lemma: the integrator's bounce case — hit point, outward
normal, scattered ray, and the `0.25 * albedo * recursive` combination. -/
theorem color_of_hit_some (sq : ℚ → ℚ) (rng : ℕ → Vec3) (w : World)
    (ray : Ray) (depth : ℤ) (k : ℕ) (j : ℕ) (s : Sphere) (t : ℚ)
    (hd : 0 < depth) (hh : w.hit sq ray = ⟨some (j, s), t⟩) :
    World.color sq rng w ray depth k =
      (1 / 4 : ℚ) •
        (s.material.albedo *
          World.color sq rng w
            (ray.scatter (ray.at t) ((ray.at t - s.center) / s.radius)
              s.material rng k).1
            (depth - 1)
            (ray.scatter (ray.at t) ((ray.at t - s.center) / s.radius)
              s.material rng k).2) := by
  rw [World.color.eq_def, if_neg (not_le.mpr hd), hh]

/-- C1: `Ray::intersects` returns the sentinel `-1` when the discriminant
`d = h*h - a*c` is negative; otherwise it returns the near root
`(h - sqrt d)/a` when that root lies strictly inside `(minT, maxT)`, else
the far root `(h + sqrt d)/a` when that lies strictly inside
`(minT, maxT)`, else the sentinel `-1`. The acceptance tests are strict on
both ends, so a root exactly equal to `minT` or `maxT` is rejected. -/
theorem intersects_root_selection (sq : ℚ → ℚ) (r : Ray) (s : Sphere)
    (minT : ℚ) (maxT : WithTop ℚ) :
    (quadD r s < 0 → r.intersects sq s minT maxT = -1) ∧
    (0 ≤ quadD r s →
      minT < nearRoot sq r s ∧ (nearRoot sq r s : WithTop ℚ) < maxT →
      r.intersects sq s minT maxT = nearRoot sq r s) ∧
    (0 ≤ quadD r s →
      ¬(minT < nearRoot sq r s ∧ (nearRoot sq r s : WithTop ℚ) < maxT) →
      minT < farRoot sq r s ∧ (farRoot sq r s : WithTop ℚ) < maxT →
      r.intersects sq s minT maxT = farRoot sq r s) ∧
    (0 ≤ quadD r s →
      ¬(minT < nearRoot sq r s ∧ (nearRoot sq r s : WithTop ℚ) < maxT) →
      ¬(minT < farRoot sq r s ∧ (farRoot sq r s : WithTop ℚ) < maxT) →
      r.intersects sq s minT maxT = -1) := by
  have e : r.intersects sq s minT maxT =
      (if quadD r s < 0 then -1
       else
         if nearRoot sq r s ≤ minT ∨ maxT ≤ (nearRoot sq r s : WithTop ℚ) then
           if farRoot sq r s ≤ minT ∨ maxT ≤ (farRoot sq r s : WithTop ℚ) then
             -1
           else farRoot sq r s
         else nearRoot sq r s) := rfl
  refine ⟨fun hd => ?_, fun hd hin => ?_, fun hd hn hf => ?_,
    fun hd hn hf => ?_⟩
  · rw [e, if_pos hd]
  · rw [e, if_neg (not_lt.mpr hd),
      if_neg (fun hout => (outside_iff minT (nearRoot sq r s) maxT).mp hout hin)]
  · rw [e, if_neg (not_lt.mpr hd),
      if_pos ((outside_iff minT (nearRoot sq r s) maxT).mpr hn),
      if_neg (fun hout => (outside_iff minT (farRoot sq r s) maxT).mp hout hf)]
  · rw [e, if_neg (not_lt.mpr hd),
      if_pos ((outside_iff minT (nearRoot sq r s) maxT).mpr hn),
      if_pos ((outside_iff minT (farRoot sq r s) maxT).mpr hf)]

/-- Witness for C1: for `unitZRay` against `probeSphere` the discriminant
is `1` (nonnegative) and the near root `1` lies strictly inside
`(0.001, ∞)`, so `intersects` returns the near root. -/
theorem intersects_root_selection_witness :
    Ray.intersects (fun q => q) unitZRay probeSphere (1 / 1000) ⊤ =
      nearRoot (fun q => q) unitZRay probeSphere := by
  refine (intersects_root_selection (fun q => q) unitZRay probeSphere
    (1 / 1000) ⊤).2.1 ?_ ⟨?_, ?_⟩
  · norm_num [quadD, quadA, quadH, quadC, dot, unitZRay, probeSphere]
  · norm_num [nearRoot, quadD, quadA, quadH, quadC, dot, unitZRay, probeSphere]
  · exact WithTop.coe_lt_top _

/-- C5: called with recursion depth ≤ 0 the integrator returns exactly
black `(0,0,0)`, and the result is independent of the world, the ray and
the random cursor — the depth test precedes any intersection query or
recursion. -/
theorem color_depth_exhausted_black (sq : ℚ → ℚ) (rng : ℕ → Vec3)
    (w : World) (ray : Ray) (depth : ℤ) (k : ℕ) (hd : depth ≤ 0) :
    World.color sq rng w ray depth k = ⟨0, 0, 0⟩ ∧
    ∀ (w2 : World) (ray2 : Ray) (k2 : ℕ),
      World.color sq rng w ray depth k = World.color sq rng w2 ray2 depth k2 := by
  refine ⟨color_of_depth_nonpos sq rng w ray depth k hd, fun w2 ray2 k2 => ?_⟩
  rw [color_of_depth_nonpos sq rng w ray depth k hd,
    color_of_depth_nonpos sq rng w2 ray2 depth k2 hd]

/-- Witness for C5 at depth `0` over a concrete world and ray. -/
theorem color_depth_exhausted_black_witness :
    World.color (fun q => q) constRng probeWorld unitZRay 0 0 = ⟨0, 0, 0⟩ :=
  (color_depth_exhausted_black (fun q => q) constRng probeWorld unitZRay 0 0
    (by norm_num)).1

/-- When every sphere of the list misses (`intersects` returns `-1`), the
loop of `World::hit` leaves its accumulator untouched. -/
theorem hitAux_all_miss (sq : ℚ → ℚ) (ray : Ray) (l : List Sphere) :
    ∀ (i : ℕ) (b0 : Option (ℕ × Sphere)) (t0 : ℚ),
      (∀ s ∈ l, ray.intersects sq s (1 / 1000) ⊤ = -1) →
      hitAux sq ray l i b0 t0 = (b0, t0) := by
  induction l with
  | nil => intro i b0 t0 _; rfl
  | cons sphere rest ih =>
    intro i b0 t0 hmiss
    simp only [hitAux]
    rw [hmiss sphere (List.mem_cons_self sphere rest)]
    rw [if_pos (Or.inl (by norm_num))]
    exact ih (i + 1) b0 t0 fun s hs => hmiss s (List.mem_cons_of_mem _ hs)

/-- C6: at depth > 0, a ray whose `intersects` against every sphere of the
world within the bounds `(0.001, ∞)` reports "no intersection" makes the
integrator return exactly the fixed ambient sky constant
`(0.5, 0.8, 0.9)`. -/
theorem color_miss_sky (sq : ℚ → ℚ) (rng : ℕ → Vec3) (w : World) (ray : Ray)
    (depth : ℤ) (k : ℕ) (hd : 0 < depth)
    (hm : ∀ s ∈ w.spheres, ray.intersects sq s (1 / 1000) ⊤ = -1) :
    World.color sq rng w ray depth k = ⟨1 / 2, 4 / 5, 9 / 10⟩ := by
  have hh : w.hit sq ray = ⟨none, fltMax⟩ := by
    unfold World.hit
    rw [hitAux_all_miss sq ray w.spheres 0 none fltMax hm]
  exact color_of_hit_none sq rng w ray depth k fltMax hd hh

/-- Witness for C6: `unitZRay` misses the single sphere of `missWorld`
(negative discriminant), so the integrator returns the sky constant. -/
theorem color_miss_sky_witness :
    World.color (fun q => q) constRng missWorld unitZRay 50 0 =
      ⟨1 / 2, 4 / 5, 9 / 10⟩ := by
  refine color_miss_sky (fun q => q) constRng missWorld unitZRay 50 0
    (by norm_num) ?_
  intro s hs
  simp only [missWorld, List.mem_singleton] at hs
  subst hs
  simp only [Ray.intersects, dot, missSphere, unitZRay, grayMat, Vec3.sub_x,
    Vec3.sub_y, Vec3.sub_z]
  norm_num

/-- C7: for a metallic material (nonzero `metallic` flag) the scattered ray
starts at the hit point `p` and its direction is the mirror reflection of
`p - origin` about the normal `n`; when `p = ray.at t` for a hit parameter
`t > 0`, that direction is the positive scalar multiple
`t • reflect direction n` of the reflection of the incoming direction. -/
theorem scatter_metallic_reflection (r : Ray) (p n : Vec3) (mat : Material)
    (rng : ℕ → Vec3) (k : ℕ) (hm : mat.metallic ≠ 0) :
    (r.scatter p n mat rng k).1.origin = p ∧
    (r.scatter p n mat rng k).1.direction = reflect (p - r.origin) n ∧
    ∀ t : ℚ, 0 < t → p = r.at t →
      (r.scatter p n mat rng k).1.direction = t • reflect r.direction n := by
  unfold Ray.scatter
  rw [if_pos hm]
  refine ⟨rfl, rfl, fun t ht hp => ?_⟩
  subst hp
  show reflect (r.at t - r.origin) n = t • reflect r.direction n
  unfold reflect Ray.at dot
  ext <;> simp <;> ring

/-- Witness for C7: a metallic scatter at the hit point `r.at 2` of a ray
along the negative z axis, with normal `(0,0,1)`. -/
theorem scatter_metallic_reflection_witness :
    (Ray.scatter ⟨⟨0, 0, 0⟩, ⟨0, 0, -1⟩⟩ ⟨0, 0, -2⟩ ⟨0, 0, 1⟩
        ⟨⟨1, 1, 1⟩, 1, 1⟩ constRng 0).1.direction =
      (2 : ℚ) • reflect (⟨0, 0, -1⟩ : Vec3) ⟨0, 0, 1⟩ := by
  refine (scatter_metallic_reflection ⟨⟨0, 0, 0⟩, ⟨0, 0, -1⟩⟩ ⟨0, 0, -2⟩
    ⟨0, 0, 1⟩ ⟨⟨1, 1, 1⟩, 1, 1⟩ constRng 0 (by norm_num)).2.2 2 (by norm_num) ?_
  unfold Ray.at
  ext <;> simp

/-- C8: whenever the rejection test of `randomUnitVec3OnSphere` accepts a
candidate, the candidate's squared length `l` satisfies `fltMin < l ≤ 1`;
provided `sq` behaves as a square root at `l` (positive and squaring back
to `l`), the divisor `sq l` is nonzero — so the normalization never divides
by zero — and the returned vector has squared length exactly `1`, hence is
never the zero vector. -/
theorem accept_unit_length_one (sq : ℚ → ℚ) (dir v : Vec3)
    (ha : acceptUnit sq dir = some v)
    (hsq : sq (dot dir dir) * sq (dot dir dir) = dot dir dir)
    (hpos : 0 < sq (dot dir dir)) :
    fltMin < dot dir dir ∧ dot dir dir ≤ 1 ∧ sq (dot dir dir) ≠ 0 ∧
      dot v v = 1 ∧ v ≠ ⟨0, 0, 0⟩ := by
  unfold acceptUnit at ha
  by_cases hc : fltMin < dot dir dir ∧ dot dir dir ≤ 1
  · rw [if_pos hc] at ha
    obtain ⟨h1, h2⟩ := hc
    have hne : sq (dot dir dir) ≠ 0 := ne_of_gt hpos
    have hv : v = dir / sq (dot dir dir) := (Option.some_inj.mp ha).symm
    subst hv
    have hl : dot (dir / sq (dot dir dir)) (dir / sq (dot dir dir)) = 1 := by
      simp only [dot, Vec3.div_x, Vec3.div_y, Vec3.div_z] at *
      field_simp
      linarith [hsq]
    refine ⟨h1, h2, hne, hl, ?_⟩
    intro h0
    rw [h0] at hl
    simp only [dot] at hl
    norm_num at hl
  · rw [if_neg hc] at ha
    exact absurd ha (by simp)

/-- Witness for C8: the candidate `(1,0,0)` has squared length `1`, is
accepted, and with the square root `1` of `1` the returned vector is the
unit vector `(1,0,0)`. -/
theorem accept_unit_length_one_witness :
    fltMin < dot ⟨1, 0, 0⟩ ⟨1, 0, 0⟩ ∧ dot ⟨1, 0, 0⟩ ⟨1, 0, 0⟩ ≤ 1 ∧
      (fun _ : ℚ => (1 : ℚ)) (dot ⟨1, 0, 0⟩ ⟨1, 0, 0⟩) ≠ 0 ∧
      dot (⟨1, 0, 0⟩ : Vec3) ⟨1, 0, 0⟩ = 1 ∧
      (⟨1, 0, 0⟩ : Vec3) ≠ ⟨0, 0, 0⟩ := by
  refine accept_unit_length_one (fun _ => 1) ⟨1, 0, 0⟩ ⟨1, 0, 0⟩ ?_
    (by norm_num [dot]) (by norm_num)
  unfold acceptUnit
  rw [if_pos (by constructor <;> norm_num [dot, fltMin])]
  simp only [dot]
  norm_num
  ext <;> norm_num

/-- C9: determinism of the rendering core — with the scene, the dimensions
and the random streams as explicit inputs, two runs of `render` over equal
inputs produce bit-identical pixel buffers. -/
theorem render_deterministic (sq : ℚ → ℚ) (fov : ℚ) (w1 w2 : World)
    (wpx hpx sampleCount : ℕ) (depth : ℤ) (jit1 jit2 : ℕ → ℚ)
    (rngs1 rngs2 : ℕ → ℕ → Vec3) (hw : w1 = w2) (hj : jit1 = jit2)
    (hr : rngs1 = rngs2) :
    render sq fov w1 wpx hpx sampleCount depth jit1 rngs1 =
      render sq fov w2 wpx hpx sampleCount depth jit2 rngs2 := by
  rw [hw, hj, hr]

/-- Witness for C9: a concrete 1×1, one-sample render over `probeWorld`
with constant streams, run twice. -/
theorem render_deterministic_witness :
    render (fun q => q) 1 probeWorld 1 1 1 50 (fun _ => 0)
        (fun _ _ => ⟨1, 0, 0⟩) =
      render (fun q => q) 1 probeWorld 1 1 1 50 (fun _ => 0)
        (fun _ _ => ⟨1, 0, 0⟩) :=
  render_deterministic (fun q => q) 1 probeWorld probeWorld 1 1 1 50
    (fun _ => 0) (fun _ => 0) (fun _ _ => ⟨1, 0, 0⟩) (fun _ _ => ⟨1, 0, 0⟩)
    rfl rfl rfl

/-- C2 counterexample: with normal `n = (1,0,0)` and drawn unit vector
`(-1,0,0)` the sum `n + dir` is exactly zero, so the near-zero fallback
fires — yet the scattered direction is `n + n = (2,0,0)`, not the normal
`(1,0,0)` verbatim, because the code assigns `dir = n` and then still
returns `Ray{p, n + dir}`. -/
theorem scatter_fallback_counterexample :
    nearZero ((⟨1, 0, 0⟩ : Vec3) + negXRng 0) = true ∧
    (Ray.scatter unitZRay ⟨0, 0, 0⟩ ⟨1, 0, 0⟩ grayMat negXRng 0).1.direction =
      ⟨2, 0, 0⟩ ∧
    (Ray.scatter unitZRay ⟨0, 0, 0⟩ ⟨1, 0, 0⟩ grayMat negXRng 0).1.direction ≠
      ⟨1, 0, 0⟩ := by
  have hnz : nearZero ((⟨1, 0, 0⟩ : Vec3) + negXRng 0) = true := by
    simp only [nearZero, negXRng, fltEps, Vec3.add_x, Vec3.add_y, Vec3.add_z]
    norm_num
  have hdir :
      (Ray.scatter unitZRay ⟨0, 0, 0⟩ ⟨1, 0, 0⟩ grayMat negXRng 0).1.direction =
        ⟨2, 0, 0⟩ := by
    simp only [Ray.scatter]
    rw [if_neg (by norm_num [grayMat]), if_pos hnz]
    show (⟨1, 0, 0⟩ : Vec3) + ⟨1, 0, 0⟩ = ⟨2, 0, 0⟩
    ext <;> norm_num
  refine ⟨hnz, hdir, ?_⟩
  rw [hdir]
  intro hcontra
  have := congrArg Vec3.x hcontra
  norm_num at this

/-- C2 amended: for a non-metallic material, when the sum of the normal and
the drawn random unit vector is near-zero, the code assigns the drawn
vector `dir = n` and still returns `Ray{p, n + dir}`, so the scattered ray
has origin `p` and direction `n + n` — twice the normal, a nonzero multiple
of `n` whenever `n ≠ 0` (so the bounce ray still has nonzero length), not
the normal verbatim; one random draw is consumed. -/
theorem scatter_fallback_doubles_normal (r : Ray) (p n : Vec3)
    (mat : Material) (rng : ℕ → Vec3) (k : ℕ) (hm : mat.metallic = 0)
    (hz : nearZero (n + rng k) = true) :
    (r.scatter p n mat rng k).1 = ⟨p, n + n⟩ ∧
    (r.scatter p n mat rng k).2 = k + 1 ∧ (n ≠ 0 → n + n ≠ 0) := by
  simp only [Ray.scatter]
  rw [if_neg (by rw [hm]; exact fun hcon => hcon rfl), if_pos hz]
  refine ⟨rfl, rfl, fun hn h0 => hn ?_⟩
  ext
  · have hx := congrArg Vec3.x h0
    simp only [Vec3.add_x, Vec3.zero_x] at hx
    simp only [Vec3.zero_x]
    linarith
  · have hy := congrArg Vec3.y h0
    simp only [Vec3.add_y, Vec3.zero_y] at hy
    simp only [Vec3.zero_y]
    linarith
  · have hzz := congrArg Vec3.z h0
    simp only [Vec3.add_z, Vec3.zero_z] at hzz
    simp only [Vec3.zero_z]
    linarith

/-- Witness for the amended C2 at a concrete hit point, normal and random
stream (with a cursor position `5` that advances to `6`). -/
theorem scatter_fallback_doubles_normal_witness :
    (Ray.scatter unitZRay ⟨0, 0, -1⟩ ⟨1, 0, 0⟩ grayMat negXRng 5).1 =
      ⟨⟨0, 0, -1⟩, ⟨1, 0, 0⟩ + ⟨1, 0, 0⟩⟩ ∧
    (Ray.scatter unitZRay ⟨0, 0, -1⟩ ⟨1, 0, 0⟩ grayMat negXRng 5).2 = 5 + 1 ∧
    ((⟨1, 0, 0⟩ : Vec3) ≠ 0 → (⟨1, 0, 0⟩ : Vec3) + ⟨1, 0, 0⟩ ≠ 0) := by
  refine scatter_fallback_doubles_normal unitZRay ⟨0, 0, -1⟩ ⟨1, 0, 0⟩ grayMat
    negXRng 5 (by norm_num [grayMat]) ?_
  simp only [nearZero, negXRng, fltEps, Vec3.add_x, Vec3.add_y, Vec3.add_z]
  norm_num

/-- C4: at depth > 0, when the closest-hit query returns a sphere, the
integrator's result is exactly the fixed constant `0.25` times
(component-wise) the hit sphere's material albedo times the recursively
computed color of the scattered ray at `depth - 1`, regardless of the
material. -/
theorem color_bounce_attenuation (sq : ℚ → ℚ) (rng : ℕ → Vec3) (w : World)
    (ray : Ray) (depth : ℤ) (k : ℕ) (j : ℕ) (s : Sphere) (t : ℚ)
    (hd : 0 < depth) (hh : w.hit sq ray = ⟨some (j, s), t⟩) :
    World.color sq rng w ray depth k =
      (1 / 4 : ℚ) •
        (s.material.albedo *
          World.color sq rng w
            (ray.scatter (ray.at t) ((ray.at t - s.center) / s.radius)
              s.material rng k).1
            (depth - 1)
            (ray.scatter (ray.at t) ((ray.at t - s.center) / s.radius)
              s.material rng k).2) :=
  color_of_hit_some sq rng w ray depth k j s t hd hh

/-- Witness for C4: `unitZRay` hits `probeSphere` in `probeWorld` at
`t = 1`, so at depth `1` the integrator's value is `0.25` times the albedo
times the recursive color at depth `0`. -/
theorem color_bounce_attenuation_witness :
    World.color (fun q => q) constRng probeWorld unitZRay 1 0 =
      (1 / 4 : ℚ) •
        (probeSphere.material.albedo *
          World.color (fun q => q) constRng probeWorld
            (unitZRay.scatter (unitZRay.at 1)
              ((unitZRay.at 1 - probeSphere.center) / probeSphere.radius)
              probeSphere.material constRng 0).1
            (1 - 1)
            (unitZRay.scatter (unitZRay.at 1)
              ((unitZRay.at 1 - probeSphere.center) / probeSphere.radius)
              probeSphere.material constRng 0).2) := by
  have hint : Ray.intersects (fun q => q) unitZRay probeSphere (1 / 1000) ⊤ = 1 := by
    simp only [Ray.intersects, dot, unitZRay, probeSphere, grayMat, Vec3.sub_x,
      Vec3.sub_y, Vec3.sub_z, top_le_iff, WithTop.coe_ne_top, or_false]
    norm_num
  have hh : World.hit (fun q => q) probeWorld unitZRay =
      ⟨some (0, probeSphere), 1⟩ := by
    unfold World.hit probeWorld
    simp only [hitAux, hint]
    rw [if_neg (by norm_num [fltMax])]
  exact color_bounce_attenuation (fun q => q) constRng probeWorld unitZRay 1 0
    0 probeSphere 1 (by norm_num) hh

/-- The best-parameter accumulator of the `World::hit` loop never
increases. -/
theorem hitAux_le (sq : ℚ → ℚ) (ray : Ray) (l : List Sphere) :
    ∀ (i : ℕ) (b0 : Option (ℕ × Sphere)) (t0 : ℚ),
      (hitAux sq ray l i b0 t0).2 ≤ t0 := by
  induction l with
  | nil => intro i b0 t0; exact le_refl t0
  | cons sphere rest ih =>
    intro i b0 t0
    simp only [hitAux]
    split
    · exact ih (i + 1) b0 t0
    · rename_i hcond
      push_neg at hcond
      exact le_trans (ih (i + 1) (some (i, sphere)) _) hcond.2

/-- When the `World::hit` loop finishes with a non-null record, either the
record is the unchanged input accumulator, or it points at a sphere of the
list (at an index counted from the running index `i`) carrying that
sphere's non-negative intersection parameter. -/
theorem hitAux_found (sq : ℚ → ℚ) (ray : Ray) (l : List Sphere) :
    ∀ (i : ℕ) (b0 : Option (ℕ × Sphere)) (t0 : ℚ) (j : ℕ) (s : Sphere) (t : ℚ),
      hitAux sq ray l i b0 t0 = (some (j, s), t) →
      (b0 = some (j, s) ∧ t0 = t) ∨
      (i ≤ j ∧ l.get? (j - i) = some s ∧
        ray.intersects sq s (1 / 1000) ⊤ = t ∧ ¬t < 0) := by
  induction l with
  | nil =>
    intro i b0 t0 j s t h
    exact Or.inl ⟨congrArg Prod.fst h, congrArg Prod.snd h⟩
  | cons sphere rest ih =>
    intro i b0 t0 j s t h
    simp only [hitAux] at h
    by_cases hcond : ray.intersects sq sphere (1 / 1000) ⊤ < 0 ∨
        t0 < ray.intersects sq sphere (1 / 1000) ⊤
    · rw [if_pos hcond] at h
      rcases ih (i + 1) b0 t0 j s t h with hleft | ⟨hij, hget, hval, hneg⟩
      · exact Or.inl hleft
      · refine Or.inr ⟨by omega, ?_, hval, hneg⟩
        have hidx : j - i = (j - (i + 1)) + 1 := by omega
        rw [hidx, List.get?_cons_succ]
        exact hget
    · rw [if_neg hcond] at h
      rcases ih (i + 1) (some (i, sphere))
          (ray.intersects sq sphere (1 / 1000) ⊤) j s t h with
        ⟨hb, ht⟩ | ⟨hij, hget, hval, hneg⟩
      · simp only [Option.some.injEq, Prod.mk.injEq] at hb
        obtain ⟨rfl, rfl⟩ := hb
        push_neg at hcond
        refine Or.inr ⟨le_refl _, ?_, ht, ?_⟩
        · rw [Nat.sub_self, List.get?_cons_zero]
        · rw [← ht]
          exact not_lt.mpr hcond.1
      · refine Or.inr ⟨by omega, ?_, hval, hneg⟩
        have hidx : j - i = (j - (i + 1)) + 1 := by omega
        rw [hidx, List.get?_cons_succ]
        exact hget

/-- Minimality: the final best parameter of the `World::hit` loop is a
lower bound for every non-missing intersection parameter in the list. -/
theorem hitAux_minimal (sq : ℚ → ℚ) (ray : Ray) (l : List Sphere) :
    ∀ (i : ℕ) (b0 : Option (ℕ × Sphere)) (t0 : ℚ) (s : Sphere), s ∈ l →
      ray.intersects sq s (1 / 1000) ⊤ < 0 ∨
        (hitAux sq ray l i b0 t0).2 ≤ ray.intersects sq s (1 / 1000) ⊤ := by
  induction l with
  | nil => intro i b0 t0 s hs; cases hs
  | cons sphere rest ih =>
    intro i b0 t0 s hs
    simp only [hitAux]
    rcases List.mem_cons.mp hs with rfl | hmem
    · split
      · rename_i hcond
        rcases hcond with hneg | hgt
        · exact Or.inl hneg
        · exact Or.inr (le_trans (hitAux_le sq ray rest (i + 1) b0 t0)
            (le_of_lt hgt))
      · exact Or.inr (hitAux_le sq ray rest (i + 1) _ _)
    · split
      · exact ih (i + 1) b0 t0 s hmem
      · exact ih (i + 1) _ _ s hmem

/-- Strictness of the skip test `t < 0 || t > closestT`: every sphere
processed at a position strictly after the final winner's index either
misses or has a parameter strictly above the final best parameter. -/
theorem hitAux_late (sq : ℚ → ℚ) (ray : Ray) (l : List Sphere) :
    ∀ (i : ℕ) (b0 : Option (ℕ × Sphere)) (t0 : ℚ) (j : ℕ) (s : Sphere) (t : ℚ),
      hitAux sq ray l i b0 t0 = (some (j, s), t) →
      ∀ (m : ℕ) (sm : Sphere), l.get? m = some sm → j < i + m →
        ray.intersects sq sm (1 / 1000) ⊤ < 0 ∨
          t < ray.intersects sq sm (1 / 1000) ⊤ := by
  induction l with
  | nil => intro i b0 t0 j s t h m sm hm hj; simp at hm
  | cons sphere rest ih =>
    intro i b0 t0 j s t h m sm hm hj
    simp only [hitAux] at h
    by_cases hcond : ray.intersects sq sphere (1 / 1000) ⊤ < 0 ∨
        t0 < ray.intersects sq sphere (1 / 1000) ⊤
    · rw [if_pos hcond] at h
      cases m with
      | zero =>
        rw [List.get?_cons_zero] at hm
        injection hm with hm'
        subst hm'
        rcases hcond with hneg | hgt
        · exact Or.inl hneg
        · right
          have ht : (hitAux sq ray rest (i + 1) b0 t0).2 = t :=
            congrArg Prod.snd h
          have hle := hitAux_le sq ray rest (i + 1) b0 t0
          rw [ht] at hle
          exact lt_of_le_of_lt hle hgt
      | succ m =>
        rw [List.get?_cons_succ] at hm
        exact ih (i + 1) b0 t0 j s t h m sm hm (by omega)
    · rw [if_neg hcond] at h
      cases m with
      | zero =>
        rcases hitAux_found sq ray rest (i + 1) (some (i, sphere))
            (ray.intersects sq sphere (1 / 1000) ⊤) j s t h with
          ⟨hb, _⟩ | ⟨hij, _⟩
        · simp only [Option.some.injEq, Prod.mk.injEq] at hb
          obtain ⟨rfl, -⟩ := hb
          exact absurd hj (by omega)
        · exact absurd hj (by omega)
      | succ m =>
        rw [List.get?_cons_succ] at hm
        exact ih (i + 1) _ _ j s t h m sm hm (by omega)

/-- A `World::hit` record equation is the same as the corresponding loop
result equation. -/
theorem hit_eq_iff (sq : ℚ → ℚ) (w : World) (ray : Ray)
    (b : Option (ℕ × Sphere)) (t : ℚ) :
    w.hit sq ray = ⟨b, t⟩ ↔ hitAux sq ray w.spheres 0 none fltMax = (b, t) := by
  unfold World.hit
  constructor
  · intro h
    have h1 := congrArg HitRecord.sphere h
    have h2 := congrArg HitRecord.t h
    exact Prod.ext h1 h2
  · intro h
    rw [h]

/-- Concrete evaluation: `unitZRay` hits `probeSphere` at `t = 1`. -/
theorem intersects_probe_eval :
    Ray.intersects (fun q => q) unitZRay probeSphere (1 / 1000) ⊤ = 1 := by
  simp only [Ray.intersects, dot, unitZRay, probeSphere, grayMat, Vec3.sub_x,
    Vec3.sub_y, Vec3.sub_z, top_le_iff, WithTop.coe_ne_top, or_false]
  norm_num

/-- Concrete evaluation: `unitZRay` hits `tieSphere` at `t = 1` as well. -/
theorem intersects_tie_eval :
    Ray.intersects (fun q => q) unitZRay tieSphere (1 / 1000) ⊤ = 1 := by
  simp only [Ray.intersects, dot, unitZRay, tieSphere, Vec3.sub_x,
    Vec3.sub_y, Vec3.sub_z, top_le_iff, WithTop.coe_ne_top, or_false]
  norm_num

/-- Concrete evaluation: on the exact tie, `World::hit` returns the second
sphere of `tieWorld`. -/
theorem tie_hit_eval :
    World.hit (fun q => q) tieWorld unitZRay = ⟨some (1, tieSphere), 1⟩ := by
  unfold World.hit tieWorld
  simp only [hitAux, intersects_probe_eval, intersects_tie_eval]
  rw [if_neg (by norm_num [fltMax]), if_neg (by norm_num)]

/-- C3 counterexample: in `tieWorld` both spheres are intersected by
`unitZRay` at exactly the same minimal parameter `t = 1`, yet `World::hit`
returns the SECOND sphere (index 1), not the earlier one — the first
sphere in iteration order does not win the tie. -/
theorem hit_first_tie_counterexample :
    Ray.intersects (fun q => q) unitZRay probeSphere (1 / 1000) ⊤ =
      Ray.intersects (fun q => q) unitZRay tieSphere (1 / 1000) ⊤ ∧
    (World.hit (fun q => q) tieWorld unitZRay).sphere = some (1, tieSphere) ∧
    (World.hit (fun q => q) tieWorld unitZRay).sphere ≠
      some (0, probeSphere) := by
  refine ⟨by rw [intersects_probe_eval, intersects_tie_eval], ?_, ?_⟩
  · rw [tie_hit_eval]
  · rw [tie_hit_eval]
    simp

/-- C3 amended: when `World::hit` returns a sphere, that sphere is in the
world at the returned index with the returned parameter, the parameter is
minimal among all spheres' intersection parameters — and when two spheres
reach exactly the same minimal `t`, the LAST such sphere in iteration
order wins: every sphere strictly after the winner either misses or has a
strictly larger parameter, because the source's skip test
`t < 0 || t > closestT` is strict, so an equal `t` replaces the record. -/
theorem hit_closest_last_tie_wins (sq : ℚ → ℚ) (w : World) (ray : Ray)
    (j : ℕ) (s : Sphere) (t : ℚ) (h : w.hit sq ray = ⟨some (j, s), t⟩) :
    w.spheres.get? j = some s ∧
    ray.intersects sq s (1 / 1000) ⊤ = t ∧
    (∀ s2 ∈ w.spheres, ray.intersects sq s2 (1 / 1000) ⊤ < 0 ∨
      t ≤ ray.intersects sq s2 (1 / 1000) ⊤) ∧
    (∀ (m : ℕ) (sm : Sphere), w.spheres.get? m = some sm → j < m →
      ray.intersects sq sm (1 / 1000) ⊤ < 0 ∨
        t < ray.intersects sq sm (1 / 1000) ⊤) := by
  have hpair := (hit_eq_iff sq w ray (some (j, s)) t).mp h
  refine ⟨?_, ?_, ?_, ?_⟩
  · rcases hitAux_found sq ray w.spheres 0 none fltMax j s t hpair with
      ⟨hb, _⟩ | ⟨_, hget, _, _⟩
    · exact absurd hb (by simp)
    · rwa [Nat.sub_zero] at hget
  · rcases hitAux_found sq ray w.spheres 0 none fltMax j s t hpair with
      ⟨hb, _⟩ | ⟨_, _, hval, _⟩
    · exact absurd hb (by simp)
    · exact hval
  · intro s2 hs2
    have hmin := hitAux_minimal sq ray w.spheres 0 none fltMax s2 hs2
    rw [hpair] at hmin
    exact hmin
  · intro m sm hm hjm
    exact hitAux_late sq ray w.spheres 0 none fltMax j s t hpair m sm hm
      (by omega)

/-- Witness for the amended C3: applied to the concrete tie in `tieWorld`,
the theorem reports the winner's parameter — the minimal `t = 1` — for the
last sphere. -/
theorem hit_closest_last_tie_wins_witness :
    Ray.intersects (fun q => q) unitZRay tieSphere (1 / 1000) ⊤ = 1 :=
  (hit_closest_last_tie_wins (fun q => q) tieWorld unitZRay 1 tieSphere 1
    tie_hit_eval).2.1

/-- C10: if every sphere's albedo components lie in `[0,1]`, then every
component of the integrator's result lies in `[0, 9/10]` — the largest
sky-color component — for every ray, depth and random stream: the no-hit
branch returns the sky constant (componentwise at most `9/10`), the
exhausted branch returns `0`, and each bounce multiplies a recursive color
in `[0, 9/10]` by `0.25` times an albedo component in `[0,1]`. -/
theorem color_components_bounded (sq : ℚ → ℚ) (rng : ℕ → Vec3) (w : World)
    (halb : ∀ s ∈ w.spheres,
      0 ≤ s.material.albedo.x ∧ s.material.albedo.x ≤ 1 ∧
      0 ≤ s.material.albedo.y ∧ s.material.albedo.y ≤ 1 ∧
      0 ≤ s.material.albedo.z ∧ s.material.albedo.z ≤ 1)
    (depth : ℤ) (ray : Ray) (k : ℕ) :
    (0 ≤ (World.color sq rng w ray depth k).x ∧
      (World.color sq rng w ray depth k).x ≤ 9 / 10) ∧
    (0 ≤ (World.color sq rng w ray depth k).y ∧
      (World.color sq rng w ray depth k).y ≤ 9 / 10) ∧
    (0 ≤ (World.color sq rng w ray depth k).z ∧
      (World.color sq rng w ray depth k).z ≤ 9 / 10) := by
  have main : ∀ (n : ℕ) (depth : ℤ), depth.toNat ≤ n → ∀ (ray : Ray) (k : ℕ),
      (0 ≤ (World.color sq rng w ray depth k).x ∧
        (World.color sq rng w ray depth k).x ≤ 9 / 10) ∧
      (0 ≤ (World.color sq rng w ray depth k).y ∧
        (World.color sq rng w ray depth k).y ≤ 9 / 10) ∧
      (0 ≤ (World.color sq rng w ray depth k).z ∧
        (World.color sq rng w ray depth k).z ≤ 9 / 10) := by
    intro n
    induction n with
    | zero =>
      intro depth hdn ray k
      rw [color_of_depth_nonpos sq rng w ray depth k (by omega)]
      norm_num
    | succ n ih =>
      intro depth hdn ray k
      by_cases hd : depth ≤ 0
      · rw [color_of_depth_nonpos sq rng w ray depth k hd]
        norm_num
      · push_neg at hd
        rcases hh : w.hit sq ray with ⟨sphOpt, t⟩
        rcases sphOpt with _ | ⟨j, s⟩
        · rw [color_of_hit_none sq rng w ray depth k t hd hh]
          norm_num
        · have hmem : s ∈ w.spheres := by
            rcases hitAux_found sq ray w.spheres 0 none fltMax j s t
                ((hit_eq_iff sq w ray (some (j, s)) t).mp hh) with
              ⟨hb, _⟩ | ⟨_, hget, _, _⟩
            · exact absurd hb (by simp)
            · exact List.get?_mem hget
          obtain ⟨hax0, hax1, hay0, hay1, haz0, haz1⟩ := halb s hmem
          rw [color_of_hit_some sq rng w ray depth k j s t hd hh]
          have hrec := ih (depth - 1) (by omega)
            (ray.scatter (ray.at t) ((ray.at t - s.center) / s.radius)
              s.material rng k).1
            (ray.scatter (ray.at t) ((ray.at t - s.center) / s.radius)
              s.material rng k).2
          obtain ⟨⟨hx0, hx1⟩, ⟨hy0, hy1⟩, hz0, hz1⟩ := hrec
          simp only [Vec3.smul_x, Vec3.smul_y, Vec3.smul_z, Vec3.mul_x,
            Vec3.mul_y, Vec3.mul_z]
          refine ⟨⟨?_, ?_⟩, ⟨?_, ?_⟩, ?_, ?_⟩ <;> nlinarith
  exact main depth.toNat depth le_rfl ray k

/-- Witness for C10 over the concrete `probeWorld`, whose only albedo is
`(0.5, 0.5, 0.5)`, at depth `2`. -/
theorem color_components_bounded_witness :
    (0 ≤ (World.color (fun q => q) constRng probeWorld unitZRay 2 0).x ∧
      (World.color (fun q => q) constRng probeWorld unitZRay 2 0).x ≤ 9 / 10) ∧
    (0 ≤ (World.color (fun q => q) constRng probeWorld unitZRay 2 0).y ∧
      (World.color (fun q => q) constRng probeWorld unitZRay 2 0).y ≤ 9 / 10) ∧
    (0 ≤ (World.color (fun q => q) constRng probeWorld unitZRay 2 0).z ∧
      (World.color (fun q => q) constRng probeWorld unitZRay 2 0).z ≤ 9 / 10) := by
  refine color_components_bounded (fun q => q) constRng probeWorld ?_ 2
    unitZRay 0
  intro s hs
  simp only [probeWorld, List.mem_singleton] at hs
  subst hs
  norm_num [probeSphere, grayMat]
